import Mathlib

/-!
Shallow embedding of src/main.py (srt-join) and theorems checking the
claims of the specification against it.

Modelling conventions, in order of appearance:
- Python str values are embedded as List Char; machine-independent
  Python int values that stay non-negative along every code path the
  claims touch are embedded as Nat.
- Python int() is modelled on unsigned decimal digit strings (the only
  shapes the claims exercise); any other string maps to none, as int()
  raises there.
- Python exceptions are modelled with Except / Option; each error
  constructor of ParseErr corresponds to one ValueError site in the
  source, and errMsg renders the message text of the source (with the
  quotes around the arrow dropped from the f-string).
- The while loop of main is translated into a structurally recursive
  function with a fuel argument; the fuel passed by the entry point
  exceeds the loop measure, one unit per iteration, so the zero-fuel
  branch is never reached on the arguments the entry point supplies.
- Reading the file from disk is the external collaborator of the spec;
  the Input record therefore carries the text that read_text() returns.
-/

/-- Decimal digit value of one character, as int() assigns it. -/
def charDigitVal (c : Char) : Option Nat :=
  if c = '0' then some 0
  else if c = '1' then some 1
  else if c = '2' then some 2
  else if c = '3' then some 3
  else if c = '4' then some 4
  else if c = '5' then some 5
  else if c = '6' then some 6
  else if c = '7' then some 7
  else if c = '8' then some 8
  else if c = '9' then some 9
  else none

/-- Whether a character is a decimal digit, in terms of charDigitVal. -/
def isDigitCh (c : Char) : Bool := (charDigitVal c).isSome

/-- Decimal digits of a natural number, most significant first. The fuel
argument only makes the recursion structural; natDigits passes n + 1,
which always suffices since a number has at most n + 1 digits. -/
def natDigitsAux : Nat → Nat → List Char
  | 0, _ => []
  | fuel + 1, n =>
    if n < 10 then [Nat.digitChar n]
    else natDigitsAux fuel (n / 10) ++ [Nat.digitChar (n % 10)]

/-- Decimal rendering of a natural number, as str() and f-strings do. -/
def natDigits (n : Nat) : List Char := natDigitsAux (n + 1) n

/-- Zero padding to a minimal width, as the format specifiers 02 and 03
of msecs_to_srt_timecode do: wider values are kept whole. -/
def padZeros (w : Nat) (ds : List Char) : List Char :=
  List.replicate (w - ds.length) '0' ++ ds

/-- str.split with a one-character separator: splits at every occurrence
and keeps empty pieces; the result is never empty. -/
def splitOnChar (sep : Char) : List Char → List (List Char)
  | [] => [[]]
  | c :: cs =>
    if c = sep then [] :: splitOnChar sep cs
    else
      match splitOnChar sep cs with
      | [] => [[c]]
      | p :: ps => (c :: p) :: ps

/-- Running value of int() over a digit string, none at the first
character that is not a digit. -/
def toNatDigitsAux : Nat → List Char → Option Nat
  | acc, [] => some acc
  | acc, c :: cs =>
    match charDigitVal c with
    | some d => toNatDigitsAux (acc * 10 + d) cs
    | none => none

/-- int() on an unsigned decimal string: none on the empty string or on
a non-digit character. -/
def toNatDigits (cs : List Char) : Option Nat :=
  if cs.isEmpty then none else toNatDigitsAux 0 cs

/-- Translation of srt_timecode_to_msecs: split on the comma, convert
the milliseconds, split the rest on colons into exactly three fields,
and combine; none on every shape that makes the source raise. -/
def srt_timecode_to_msecs (tc : List Char) : Option Nat :=
  match splitOnChar ',' tc with
  | [hms, msecStr] =>
    match toNatDigits msecStr with
    | some msec =>
      match splitOnChar ':' hms with
      | [hourStr, minStr, secStr] =>
        match toNatDigits hourStr, toNatDigits minStr, toNatDigits secStr with
        | some hour, some mn, some sec =>
          some (msec + sec * 1000 + mn * (1000 * 60) + hour * (1000 * 60 * 60))
        | _, _, _ => none
      | _ => none
    | none => none
  | _ => none

/-- Translation of msecs_to_srt_timecode: the divmod chain by 1000, 60
and 60, each field zero padded to width 2 (3 for milliseconds). -/
def msecs_to_srt_timecode (xsecs : Nat) : List Char :=
  let msec := xsecs % 1000
  let x1 := xsecs / 1000
  let sec := x1 % 60
  let x2 := x1 / 60
  let mn := x2 % 60
  let hour := x2 / 60
  padZeros 2 (natDigits hour) ++ ':' ::
    (padZeros 2 (natDigits mn) ++ ':' ::
      (padZeros 2 (natDigits sec) ++ ',' :: padZeros 3 (natDigits msec)))

/-- One subtitle cue: start and end in milliseconds plus the text. -/
structure SubtitleEntry where
  start : Nat
  «end» : Nat
  text : List Char
deriving DecidableEq, Repr

/-- Translation of has_overlap: the four early-return interval cases of
the source, in source order. -/
def has_overlap (e1 e2 : SubtitleEntry) : Bool :=
  if e1.start ≤ e2.start ∧ e1.«end» ≥ e2.start then true
  else if e1.«end» ≥ e2.«end» ∧ e1.start ≤ e2.«end» then true
  else if e1.start ≤ e2.start ∧ e1.«end» ≥ e2.«end» then true
  else if e1.start ≥ e2.start ∧ e1.«end» ≤ e2.«end» then true
  else false

/-- Translation of merge_entries: hull interval; the text of the entry
whose start equals the combined start comes first, a line break between
the two texts. -/
def merge_entries (e1 e2 : SubtitleEntry) : SubtitleEntry :=
  let begin_ := min e1.start e2.start
  let end_ := max e1.«end» e2.«end»
  let text :=
    if begin_ = e1.start then e1.text ++ '\n' :: e2.text
    else e2.text ++ '\n' :: e1.text
  ⟨begin_, end_, text⟩

/-- Input source spec of the source; content stands for the text that
Path(filename).read_text() returns, file access being the external
collaborator of the spec. -/
structure Input where
  content : List Char
  skip_first : Nat := 0
  skip_last : Nat := 0

/-- The whitespace characters of the character class the regular
expression in read_subs splits on. -/
def isSpace (c : Char) : Bool :=
  c = ' ' || c = '\t' || c = '\n' || c = '\r' || c = '\x0b' || c = '\x0c'

/-- re.split on single whitespace characters with a maxsplit bound: at
most maxsplit splits are made, scanning left to right; once the budget
is spent the remainder is kept whole, whitespace included. -/
def splitWs : Nat → List Char → List (List Char)
  | _, [] => [[]]
  | 0, cs => [cs]
  | maxsplit + 1, c :: cs =>
    if isSpace c then [] :: splitWs maxsplit cs
    else
      match splitWs (maxsplit + 1) cs with
      | [] => [[c]]
      | p :: ps => (c :: p) :: ps

/-- The ValueError sites reachable through read_subs, one constructor
per raise site of the source. -/
inductive ParseErr where
  | substringNotFound
  | unpackMismatch (got : Nat)
  | arrowExpected (idx : List Char)
  | badTimecode
  | sliceNegativeStop
deriving DecidableEq, Repr

/-- Message text of each error, following the messages of the source;
the quotes around the arrow of the original f-string are dropped. -/
def errMsg : ParseErr → List Char
  | .substringNotFound => "substring not found".data
  | .unpackMismatch got =>
      "not enough values to unpack (expected 5, got ".data ++ natDigits got ++ ")".data
  | .arrowExpected idx => "at index ".data ++ idx ++ ": expected -->".data
  | .badTimecode => "invalid literal for int or not enough values to unpack".data
  | .sliceNegativeStop =>
      "Stop argument for islice() must be None or an integer: 0 <= x <= sys.maxsize.".data

/-- Decidable equality on Except values, used only to evaluate the
embedding on concrete inputs. -/
instance {e a : Type} [DecidableEq e] [DecidableEq a] : DecidableEq (Except e a)
  | .ok x, .ok y =>
    if h : x = y then .isTrue (by rw [h]) else .isFalse (fun hh => h (Except.ok.inj hh))
  | .ok _, .error _ => .isFalse (fun hh => Except.noConfusion hh)
  | .error _, .ok _ => .isFalse (fun hh => Except.noConfusion hh)
  | .error x, .error y =>
    if h : x = y then .isTrue (by rw [h]) else .isFalse (fun hh => h (Except.error.inj hh))

/-- Substring containment, as the in operator on str decides it. -/
def containsSub (needle : List Char) : List Char → Bool
  | [] => needle.isEmpty
  | c :: cs => needle.isPrefixOf (c :: cs) || containsSub needle cs

/-- Translation of the per-block tokenizer _do_entry inside read_subs:
first token.index, which raises when the block has no colon; then the
whitespace split with maxsplit 4, unpacked into exactly five fields;
then the arrow check, whose error message carries the declared index;
finally the two timecode conversions. -/
def do_entry (token : List Char) : Except ParseErr SubtitleEntry :=
  if ':' ∈ token then
    match splitWs 4 token with
    | [idx, startStr, arrow, endStr, text] =>
      if arrow = "-->".data then
        match srt_timecode_to_msecs startStr, srt_timecode_to_msecs endStr with
        | some s, some e => .ok ⟨s, e, text⟩
        | _, _ => .error .badTimecode
      else .error (.arrowExpected idx)
    | parts => .error (.unpackMismatch parts.length)
  else .error .substringNotFound

/-- str.split with the two-character separator of read_subs: splits at
every non-overlapping occurrence of two consecutive line breaks,
scanning left to right. -/
def splitOnNlNl : List Char → List (List Char)
  | '\n' :: '\n' :: cs => [] :: splitOnNlNl cs
  | c :: cs =>
    match splitOnNlNl cs with
    | [] => [[c]]
    | p :: ps => (c :: p) :: ps
  | [] => [[]]

/-- Translation of read_subs: split the content into blocks, keep the
non-empty ones, tokenize each, then the islice trim, which raises when
the stop bound len(subs) - skip_last is negative and otherwise keeps
the index range from skip_first up to that stop. -/
def read_subs (inp : Input) : Except ParseErr (List SubtitleEntry) := do
  let subs ← ((splitOnNlNl inp.content).filter (fun t => !t.isEmpty)).mapM do_entry
  if subs.length < inp.skip_last then
    Except.error .sliceNegativeStop
  else
    pure ((subs.take (subs.length - inp.skip_last)).drop inp.skip_first)

/-- Translation of print_entry: the warning flag raised when the text
holds more than one line break, and the rendered block of index line,
timecode range line and text body. -/
def print_entry (entry : SubtitleEntry) (index : Nat) : Bool × List Char :=
  (decide (entry.text.count '\n' > 1),
    natDigits index ++ '\n' ::
      (msecs_to_srt_timecode entry.start ++ " --> ".data ++
        msecs_to_srt_timecode entry.«end» ++ '\n' :: entry.text))

/-- How many entries a cursor still holds: one when active, none when
exhausted. -/
def weight : Option (Nat × SubtitleEntry) → Nat
  | none => 0
  | some _ => 1

/-- The two drain loops at the bottom of main: emit the pending entry
and then the rest of the remaining source, numbering on from idx. -/
def drainFrom (s : Nat × SubtitleEntry) (rest : List (Nat × SubtitleEntry))
    (idx : Nat) : List (Nat × SubtitleEntry) :=
  match rest with
  | [] => [(idx, s.2)]
  | h :: t => (idx, s.2) :: drainFrom h t (idx + 1)

/-- The while loop of main over the two cursors, the two remaining
enumerated lists and the new_idx counter, emitting pairs of printed
index and entry. Control flow follows the source: the counter rises at
the top of each iteration; in the overlap branch the merged entry is
emitted and then only the cursor with the earlier start advances; the
drain loops run when one cursor is exhausted. The fuel falls by one per
iteration and the entry point supplies more fuel than iterations. -/
def mainLoopF : Nat → Option (Nat × SubtitleEntry) → List (Nat × SubtitleEntry) →
    Option (Nat × SubtitleEntry) → List (Nat × SubtitleEntry) → Nat →
    List (Nat × SubtitleEntry)
  | 0, _, _, _, _, _ => []
  | fuel + 1, s1, i1, s2, i2, new_idx =>
    match s1, s2 with
    | none, none => []
    | some a, some b =>
      if has_overlap a.2 b.2 then
        if a.2.start < b.2.start then
          (new_idx + 1, merge_entries a.2 b.2) ::
            mainLoopF fuel i1.head? i1.tail s2 i2 (new_idx + 1)
        else
          (new_idx + 1, merge_entries a.2 b.2) ::
            mainLoopF fuel s1 i1 i2.head? i2.tail (new_idx + 1)
      else
        if a.2.start < b.2.start then
          (new_idx + 1, a.2) :: mainLoopF fuel i1.head? i1.tail s2 i2 (new_idx + 1)
        else
          (new_idx + 1, b.2) :: mainLoopF fuel s1 i1 i2.head? i2.tail (new_idx + 1)
    | some a, none => drainFrom a i1 (new_idx + 1)
    | none, some b => drainFrom b i2 (new_idx + 1)

/-- The sequencing core of main on two already trimmed entry lists:
enumerate both, pull the first element of each as the initial cursor
and run the loop from new_idx zero. -/
def runMain (l1 l2 : List SubtitleEntry) : List (Nat × SubtitleEntry) :=
  mainLoopF (l1.length + l2.length + 1)
    l1.enum.head? l1.enum.tail l2.enum.head? l2.enum.tail 0

/-- Translation of main: read and trim both sources, then run the
sequencing loop over them. Lean reserves the name main for programs, so
the prime is added. -/
def main' (in1 in2 : Input) : Except ParseErr (List (Nat × SubtitleEntry)) := do
  let subs1 ← read_subs in1
  let subs2 ← read_subs in2
  pure (runMain subs1 subs2)

/-- A well-formed timecode string: exactly the shape HH:MM:SS,mmm with
a two-digit hour field (hence an hour value below 100), minute and
second values below 60 and a three-digit millisecond field. -/
def wellFormedTC : List Char → Bool
  | [h1, h0, c1, mi1, mi0, c2, se1, se0, c3, ms2, ms1, ms0] =>
    c1 == ':' && c2 == ':' && c3 == ',' &&
    isDigitCh h1 && isDigitCh h0 && isDigitCh mi1 && isDigitCh mi0 &&
    isDigitCh se1 && isDigitCh se0 && isDigitCh ms2 && isDigitCh ms1 && isDigitCh ms0 &&
    decide ((charDigitVal mi1).getD 0 * 10 + (charDigitVal mi0).getD 0 < 60) &&
    decide ((charDigitVal se1).getD 0 * 10 + (charDigitVal se0).getD 0 < 60)
  | _ => false

theorem charDigitVal_digitChar {d : Nat} (h : d < 10) :
    charDigitVal (Nat.digitChar d) = some d := by
  interval_cases d <;> decide

theorem charDigitVal_lt {c : Char} {d : Nat} (h : charDigitVal c = some d) : d < 10 := by
  unfold charDigitVal at h
  split_ifs at h <;> simp_all <;> omega

theorem digitChar_charDigitVal {c : Char} {d : Nat} (h : charDigitVal c = some d) :
    Nat.digitChar d = c := by
  unfold charDigitVal at h
  split_ifs at h <;> simp_all <;> (subst h; rfl)

theorem isDigitCh_exists {c : Char} (h : isDigitCh c = true) :
    ∃ d, charDigitVal c = some d := by
  unfold isDigitCh at h
  cases hc : charDigitVal c with
  | none => rw [hc] at h; simp at h
  | some d => exact ⟨d, rfl⟩

theorem isDigitCh_ne {c : Char} (h : isDigitCh c = true) :
    c ≠ ',' ∧ c ≠ ':' := by
  obtain ⟨d, hd⟩ := isDigitCh_exists h
  have hlt := charDigitVal_lt hd
  have hc := digitChar_charDigitVal hd
  subst hc
  interval_cases d <;> decide

theorem natDigitsAux_fuel_irrel : ∀ f g n, 0 < f → 0 < g → n < 10 ^ f → n < 10 ^ g →
    natDigitsAux f n = natDigitsAux g n := by
  intro f
  induction f with
  | zero => intro g n hf; omega
  | succ f ih =>
    intro g n _ hg hnf hng
    match g, hg with
    | g + 1, _ =>
      show natDigitsAux (f + 1) n = natDigitsAux (g + 1) n
      unfold natDigitsAux
      by_cases hn : n < 10
      · simp [hn]
      · simp only [hn, if_false]
        have hf1 : 0 < f := by
          by_contra hc
          have : f = 0 := by omega
          subst this
          simp at hnf
          omega
        have hg1 : 0 < g := by
          by_contra hc
          have : g = 0 := by omega
          subst this
          simp at hng
          omega
        have hdf : n / 10 < 10 ^ f := by
          have : (10 : Nat) ^ (f + 1) = 10 ^ f * 10 := pow_succ 10 f
          omega
        have hdg : n / 10 < 10 ^ g := by
          have : (10 : Nat) ^ (g + 1) = 10 ^ g * 10 := pow_succ 10 g
          omega
        rw [ih g (n / 10) hf1 hg1 hdf hdg]

theorem natDigits_unfold (n : Nat) :
    natDigits n = if n < 10 then [Nat.digitChar n]
      else natDigits (n / 10) ++ [Nat.digitChar (n % 10)] := by
  by_cases hn : n < 10
  · rw [if_pos hn]
    show natDigitsAux (n + 1) n = _
    unfold natDigitsAux
    simp [hn]
  · rw [if_neg hn]
    show natDigitsAux (n + 1) n = natDigits (n / 10) ++ [Nat.digitChar (n % 10)]
    have h1 : natDigitsAux (n + 1) n = natDigitsAux n (n / 10) ++ [Nat.digitChar (n % 10)] := by
      conv_lhs => unfold natDigitsAux
      simp [hn]
    rw [h1]
    congr 1
    show natDigitsAux n (n / 10) = natDigitsAux (n / 10 + 1) (n / 10)
    apply natDigitsAux_fuel_irrel
    · omega
    · omega
    · calc n / 10 ≤ n := Nat.div_le_self n 10
        _ < 10 ^ n := Nat.lt_pow_self (by omega) n
    · calc n / 10 < 10 ^ (n / 10) := Nat.lt_pow_self (by omega) (n / 10)
        _ ≤ 10 ^ (n / 10 + 1) := Nat.pow_le_pow_right (by omega) (by omega)

theorem natDigits_ne_nil (n : Nat) : natDigits n ≠ [] := by
  rw [natDigits_unfold]
  split <;> simp

theorem natDigits_all_digits : ∀ n c, c ∈ natDigits n → isDigitCh c = true := by
  intro n
  induction n using Nat.strong_induction_on with
  | _ n ih =>
    intro c hc
    rw [natDigits_unfold] at hc
    by_cases hn : n < 10
    · rw [if_pos hn] at hc
      simp at hc
      subst hc
      unfold isDigitCh
      rw [charDigitVal_digitChar hn]
      rfl
    · rw [if_neg hn] at hc
      rw [List.mem_append] at hc
      rcases hc with hc | hc
      · exact ih (n / 10) (by omega) c hc
      · simp at hc
        subst hc
        unfold isDigitCh
        rw [charDigitVal_digitChar (Nat.mod_lt n (by omega))]
        rfl

theorem toNatDigitsAux_append {xs : List Char} {acc a : Nat} (ys : List Char)
    (h : toNatDigitsAux acc xs = some a) :
    toNatDigitsAux acc (xs ++ ys) = toNatDigitsAux a ys := by
  induction xs generalizing acc with
  | nil =>
    simp [toNatDigitsAux] at h
    subst h
    rfl
  | cons c cs ih =>
    cases hcv : charDigitVal c with
    | none => simp [toNatDigitsAux, hcv] at h
    | some d =>
      simp only [toNatDigitsAux, hcv] at h
      rw [List.cons_append]
      simp only [toNatDigitsAux, hcv]
      exact ih h

theorem toNatDigitsAux_natDigits : ∀ n acc,
    toNatDigitsAux acc (natDigits n) = some (acc * 10 ^ (natDigits n).length + n) := by
  intro n
  induction n using Nat.strong_induction_on with
  | _ n ih =>
    intro acc
    rw [natDigits_unfold]
    by_cases hn : n < 10
    · rw [if_pos hn]
      simp only [toNatDigitsAux, charDigitVal_digitChar hn]
      simp
    · rw [if_neg hn]
      have h1 := ih (n / 10) (by omega) acc
      rw [toNatDigitsAux_append [Nat.digitChar (n % 10)] h1]
      simp only [toNatDigitsAux, charDigitVal_digitChar (Nat.mod_lt n (by omega))]
      simp only [List.length_append, List.length_singleton, Option.some.injEq]
      rw [pow_succ]
      have := Nat.div_add_mod n 10
      ring_nf
      omega

theorem toNatDigitsAux_replicate_zero : ∀ k (cs : List Char),
    toNatDigitsAux 0 (List.replicate k '0' ++ cs) = toNatDigitsAux 0 cs := by
  intro k
  induction k with
  | zero => simp
  | succ k ih =>
    intro cs
    rw [List.replicate_succ, List.cons_append]
    simp only [toNatDigitsAux]
    rw [show charDigitVal '0' = some 0 from by decide]
    show toNatDigitsAux (0 * 10 + 0) (List.replicate k '0' ++ cs) = _
    simp only [Nat.zero_mul, Nat.add_zero]
    exact ih cs

theorem toNatDigits_padZeros_natDigits (w n : Nat) :
    toNatDigits (padZeros w (natDigits n)) = some n := by
  unfold toNatDigits padZeros
  rw [if_neg (by simp [List.isEmpty_iff, natDigits_ne_nil n])]
  rw [toNatDigitsAux_replicate_zero]
  rw [toNatDigitsAux_natDigits]
  simp

theorem padZeros_natDigits_all_digits {w n : Nat} {c : Char}
    (hc : c ∈ padZeros w (natDigits n)) : isDigitCh c = true := by
  unfold padZeros at hc
  rw [List.mem_append] at hc
  rcases hc with hc | hc
  · rw [List.mem_replicate] at hc
    rw [hc.2]
    rfl
  · exact natDigits_all_digits n c hc

theorem splitOnChar_of_not_mem {sep : Char} : ∀ {cs : List Char}, sep ∉ cs →
    splitOnChar sep cs = [cs] := by
  intro cs
  induction cs with
  | nil => intro _; rfl
  | cons c cs ih =>
    intro h
    rw [List.mem_cons] at h
    push_neg at h
    rw [splitOnChar]
    rw [if_neg (fun hc => h.1 hc.symm)]
    rw [ih h.2]

theorem splitOnChar_append {sep : Char} : ∀ {xs : List Char} (ys : List Char), sep ∉ xs →
    splitOnChar sep (xs ++ sep :: ys) = xs :: splitOnChar sep ys := by
  intro xs
  induction xs with
  | nil =>
    intro ys _
    show splitOnChar sep (sep :: ys) = _
    rw [splitOnChar]
    rw [if_pos rfl]
  | cons c cs ih =>
    intro ys h
    rw [List.mem_cons] at h
    push_neg at h
    rw [List.cons_append]
    rw [splitOnChar]
    rw [if_neg (fun hc => h.1 hc.symm)]
    rw [ih ys h.2]

theorem roundtrip_format_parse (m : Nat) :
    srt_timecode_to_msecs (msecs_to_srt_timecode m) = some m := by
  have hno : ∀ (w n : Nat) (c : Char), c ∈ padZeros w (natDigits n) → c ≠ ',' ∧ c ≠ ':' :=
    fun w n c hc => isDigitCh_ne (padZeros_natDigits_all_digits hc)
  set h := m / 1000 / 60 / 60 with hh
  set mi := m / 1000 / 60 % 60 with hmi
  set se := m / 1000 % 60 with hse
  set ms := m % 1000 with hms
  have hfmt : msecs_to_srt_timecode m =
      (padZeros 2 (natDigits h) ++ ':' :: (padZeros 2 (natDigits mi) ++ ':' :: padZeros 2 (natDigits se)))
        ++ ',' :: padZeros 3 (natDigits ms) := by
    unfold msecs_to_srt_timecode
    simp [List.append_assoc]
  have hsplitC : splitOnChar ',' (msecs_to_srt_timecode m) =
      [padZeros 2 (natDigits h) ++ ':' :: (padZeros 2 (natDigits mi) ++ ':' :: padZeros 2 (natDigits se)),
        padZeros 3 (natDigits ms)] := by
    rw [hfmt]
    rw [splitOnChar_append _ (by
      intro hc
      rcases List.mem_append.mp hc with hc | hc
      · exact (hno _ _ _ hc).1 rfl
      · rcases List.mem_cons.mp hc with hc | hc
        · exact absurd hc.symm (by decide)
        · rcases List.mem_append.mp hc with hc | hc
          · exact (hno _ _ _ hc).1 rfl
          · rcases List.mem_cons.mp hc with hc | hc
            · exact absurd hc.symm (by decide)
            · exact (hno _ _ _ hc).1 rfl)]
    rw [splitOnChar_of_not_mem (fun hc => (hno _ _ _ hc).1 rfl)]
  have hsplitA : splitOnChar ':'
      (padZeros 2 (natDigits h) ++ ':' :: (padZeros 2 (natDigits mi) ++ ':' :: padZeros 2 (natDigits se))) =
      [padZeros 2 (natDigits h), padZeros 2 (natDigits mi), padZeros 2 (natDigits se)] := by
    rw [splitOnChar_append _ (fun hc => (hno _ _ _ hc).2 rfl)]
    rw [splitOnChar_append _ (fun hc => (hno _ _ _ hc).2 rfl)]
    rw [splitOnChar_of_not_mem (fun hc => (hno _ _ _ hc).2 rfl)]
  unfold srt_timecode_to_msecs
  rw [hsplitC]
  simp only [toNatDigits_padZeros_natDigits, hsplitA, Option.some.injEq]
  omega

theorem natDigits_one {d : Nat} (h : d < 10) : natDigits d = [Nat.digitChar d] := by
  rw [natDigits_unfold, if_pos h]

theorem natDigits_two {d1 d0 : Nat} (h1 : d1 ≠ 0) (hl1 : d1 < 10) (hl0 : d0 < 10) :
    natDigits (d1 * 10 + d0) = [Nat.digitChar d1, Nat.digitChar d0] := by
  rw [natDigits_unfold, if_neg (by omega)]
  have hdiv : (d1 * 10 + d0) / 10 = d1 := by omega
  have hmod : (d1 * 10 + d0) % 10 = d0 := by omega
  rw [hdiv, hmod, natDigits_one hl1]
  rfl

theorem pad2_digits {c1 c0 : Char} {d1 d0 : Nat}
    (hc1 : charDigitVal c1 = some d1) (hc0 : charDigitVal c0 = some d0) :
    padZeros 2 (natDigits (d1 * 10 + d0)) = [c1, c0] := by
  have hl1 := charDigitVal_lt hc1
  have hl0 := charDigitVal_lt hc0
  have he1 := digitChar_charDigitVal hc1
  have he0 := digitChar_charDigitVal hc0
  by_cases hz : d1 = 0
  · subst hz
    have hv : 0 * 10 + d0 = d0 := by omega
    rw [hv, natDigits_one hl0, he0]
    have hc1z : c1 = '0' := by rw [← he1]; decide
    rw [hc1z]
    rfl
  · rw [natDigits_two hz hl1 hl0, he1, he0]
    rfl

theorem pad3_digits {c2 c1 c0 : Char} {d2 d1 d0 : Nat}
    (hc2 : charDigitVal c2 = some d2) (hc1 : charDigitVal c1 = some d1)
    (hc0 : charDigitVal c0 = some d0) :
    padZeros 3 (natDigits (d2 * 100 + d1 * 10 + d0)) = [c2, c1, c0] := by
  have hl2 := charDigitVal_lt hc2
  have hl1 := charDigitVal_lt hc1
  have hl0 := charDigitVal_lt hc0
  have he2 := digitChar_charDigitVal hc2
  have he1 := digitChar_charDigitVal hc1
  have he0 := digitChar_charDigitVal hc0
  by_cases hz2 : d2 = 0
  · subst hz2
    have hc2z : c2 = '0' := by rw [← he2]; decide
    by_cases hz1 : d1 = 0
    · subst hz1
      have hv : 0 * 100 + 0 * 10 + d0 = d0 := by omega
      rw [hv, natDigits_one hl0, he0]
      have hc1z : c1 = '0' := by rw [← he1]; decide
      rw [hc1z, hc2z]
      rfl
    · have hv : 0 * 100 + d1 * 10 + d0 = d1 * 10 + d0 := by omega
      rw [hv, natDigits_two hz1 hl1 hl0, he1, he0, hc2z]
      rfl
  · have hv : d2 * 100 + d1 * 10 + d0 = (d2 * 10 + d1) * 10 + d0 := by ring
    rw [hv]
    rw [natDigits_unfold, if_neg (by omega)]
    have hdiv : ((d2 * 10 + d1) * 10 + d0) / 10 = d2 * 10 + d1 := by omega
    have hmod : ((d2 * 10 + d1) * 10 + d0) % 10 = d0 := by omega
    rw [hdiv, hmod, natDigits_two hz2 hl2 hl1, he2, he1, he0]
    rfl

theorem roundtrip_parse_format : ∀ s : List Char, wellFormedTC s = true →
    (srt_timecode_to_msecs s).map msecs_to_srt_timecode = some s := by
  intro s hwf
  unfold wellFormedTC at hwf
  split at hwf
  next h1 h0 c1 mi1 mi0 c2 se1 se0 c3 ms2 ms1 ms0 =>
    simp only [Bool.and_eq_true, beq_iff_eq, decide_eq_true_eq, and_assoc] at hwf
    obtain ⟨rfl, rfl, rfl, hdh1, hdh0, hdmi1, hdmi0, hdse1, hdse0, hdms2, hdms1, hdms0,
      hmi60, hse60⟩ := hwf
    obtain ⟨dh1, eh1⟩ := isDigitCh_exists hdh1
    obtain ⟨dh0, eh0⟩ := isDigitCh_exists hdh0
    obtain ⟨dmi1, emi1⟩ := isDigitCh_exists hdmi1
    obtain ⟨dmi0, emi0⟩ := isDigitCh_exists hdmi0
    obtain ⟨dse1, ese1⟩ := isDigitCh_exists hdse1
    obtain ⟨dse0, ese0⟩ := isDigitCh_exists hdse0
    obtain ⟨dms2, ems2⟩ := isDigitCh_exists hdms2
    obtain ⟨dms1, ems1⟩ := isDigitCh_exists hdms1
    obtain ⟨dms0, ems0⟩ := isDigitCh_exists hdms0
    rw [emi1, emi0] at hmi60
    rw [ese1, ese0] at hse60
    simp only [Option.getD_some] at hmi60 hse60
    have hbh1 := charDigitVal_lt eh1
    have hbh0 := charDigitVal_lt eh0
    have hbmi1 := charDigitVal_lt emi1
    have hbmi0 := charDigitVal_lt emi0
    have hbse1 := charDigitVal_lt ese1
    have hbse0 := charDigitVal_lt ese0
    have hbms2 := charDigitVal_lt ems2
    have hbms1 := charDigitVal_lt ems1
    have hbms0 := charDigitVal_lt ems0
    have hsplitC : splitOnChar ','
        ([h1, h0, ':', mi1, mi0, ':', se1, se0, ',', ms2, ms1, ms0] : List Char) =
        [[h1, h0, ':', mi1, mi0, ':', se1, se0], [ms2, ms1, ms0]] := by
      show splitOnChar ','
          (([h1, h0, ':', mi1, mi0, ':', se1, se0] : List Char) ++ ',' :: [ms2, ms1, ms0]) = _
      rw [splitOnChar_append _ (by
        intro hmem
        simp only [List.mem_cons, List.not_mem_nil, or_false] at hmem
        rcases hmem with h | h | h | h | h | h | h | h
        · exact (isDigitCh_ne hdh1).1 h.symm
        · exact (isDigitCh_ne hdh0).1 h.symm
        · exact absurd h (by decide)
        · exact (isDigitCh_ne hdmi1).1 h.symm
        · exact (isDigitCh_ne hdmi0).1 h.symm
        · exact absurd h (by decide)
        · exact (isDigitCh_ne hdse1).1 h.symm
        · exact (isDigitCh_ne hdse0).1 h.symm)]
      rw [splitOnChar_of_not_mem (by
        intro hmem
        simp only [List.mem_cons, List.not_mem_nil, or_false] at hmem
        rcases hmem with h | h | h
        · exact (isDigitCh_ne hdms2).1 h.symm
        · exact (isDigitCh_ne hdms1).1 h.symm
        · exact (isDigitCh_ne hdms0).1 h.symm)]
    have hsplitA : splitOnChar ':' ([h1, h0, ':', mi1, mi0, ':', se1, se0] : List Char) =
        [[h1, h0], [mi1, mi0], [se1, se0]] := by
      show splitOnChar ':' (([h1, h0] : List Char) ++ ':' :: ([mi1, mi0] ++ ':' :: [se1, se0])) = _
      rw [splitOnChar_append _ (by
        intro hmem
        simp only [List.mem_cons, List.not_mem_nil, or_false] at hmem
        rcases hmem with h | h
        · exact (isDigitCh_ne hdh1).2 h.symm
        · exact (isDigitCh_ne hdh0).2 h.symm)]
      rw [splitOnChar_append _ (by
        intro hmem
        simp only [List.mem_cons, List.not_mem_nil, or_false] at hmem
        rcases hmem with h | h
        · exact (isDigitCh_ne hdmi1).2 h.symm
        · exact (isDigitCh_ne hdmi0).2 h.symm)]
      rw [splitOnChar_of_not_mem (by
        intro hmem
        simp only [List.mem_cons, List.not_mem_nil, or_false] at hmem
        rcases hmem with h | h
        · exact (isDigitCh_ne hdse1).2 h.symm
        · exact (isDigitCh_ne hdse0).2 h.symm)]
    have ht3 : toNatDigits ([ms2, ms1, ms0] : List Char) =
        some (dms2 * 100 + dms1 * 10 + dms0) := by
      simp [toNatDigits, toNatDigitsAux, ems2, ems1, ems0]
      ring
    have hth : toNatDigits ([h1, h0] : List Char) = some (dh1 * 10 + dh0) := by
      simp [toNatDigits, toNatDigitsAux, eh1, eh0]
    have htmi : toNatDigits ([mi1, mi0] : List Char) = some (dmi1 * 10 + dmi0) := by
      simp [toNatDigits, toNatDigitsAux, emi1, emi0]
    have htse : toNatDigits ([se1, se0] : List Char) = some (dse1 * 10 + dse0) := by
      simp [toNatDigits, toNatDigitsAux, ese1, ese0]
    have hparse : srt_timecode_to_msecs
        ([h1, h0, ':', mi1, mi0, ':', se1, se0, ',', ms2, ms1, ms0] : List Char) =
        some (dms2 * 100 + dms1 * 10 + dms0 + (dse1 * 10 + dse0) * 1000 +
          (dmi1 * 10 + dmi0) * (1000 * 60) + (dh1 * 10 + dh0) * (1000 * 60 * 60)) := by
      unfold srt_timecode_to_msecs
      rw [hsplitC]
      simp only [ht3, hsplitA, hth, htmi, htse]
    rw [hparse]
    simp only [Option.map_some', Option.some.injEq]
    have e4 : (dms2 * 100 + dms1 * 10 + dms0 + (dse1 * 10 + dse0) * 1000 +
        (dmi1 * 10 + dmi0) * (1000 * 60) + (dh1 * 10 + dh0) * (1000 * 60 * 60)) % 1000 =
        dms2 * 100 + dms1 * 10 + dms0 := by omega
    have e3 : (dms2 * 100 + dms1 * 10 + dms0 + (dse1 * 10 + dse0) * 1000 +
        (dmi1 * 10 + dmi0) * (1000 * 60) + (dh1 * 10 + dh0) * (1000 * 60 * 60)) / 1000 % 60 =
        dse1 * 10 + dse0 := by omega
    have e2 : (dms2 * 100 + dms1 * 10 + dms0 + (dse1 * 10 + dse0) * 1000 +
        (dmi1 * 10 + dmi0) * (1000 * 60) + (dh1 * 10 + dh0) * (1000 * 60 * 60)) / 1000 / 60 % 60 =
        dmi1 * 10 + dmi0 := by omega
    have e1 : (dms2 * 100 + dms1 * 10 + dms0 + (dse1 * 10 + dse0) * 1000 +
        (dmi1 * 10 + dmi0) * (1000 * 60) + (dh1 * 10 + dh0) * (1000 * 60 * 60)) / 1000 / 60 / 60 =
        dh1 * 10 + dh0 := by omega
    show padZeros 2 (natDigits _) ++ ':' ::
        (padZeros 2 (natDigits _) ++ ':' :: (padZeros 2 (natDigits _) ++ ',' :: padZeros 3 (natDigits _))) = _
    rw [e1, e2, e3, e4]
    rw [pad2_digits eh1 eh0, pad2_digits emi1 emi0, pad2_digits ese1 ese0,
      pad3_digits ems2 ems1 ems0]
    rfl
  next =>
    simp at hwf

theorem drainFrom_length : ∀ (rest : List (Nat × SubtitleEntry)) s idx,
    (drainFrom s rest idx).length = rest.length + 1 := by
  intro rest
  induction rest with
  | nil => intro s idx; rfl
  | cons h t ih =>
    intro s idx
    show ((idx, s.2) :: drainFrom h t (idx + 1)).length = _
    simp [ih]

theorem drainFrom_map_fst : ∀ (rest : List (Nat × SubtitleEntry)) s idx,
    (drainFrom s rest idx).map Prod.fst = List.range' idx (rest.length + 1) := by
  intro rest
  induction rest with
  | nil => intro s idx; simp [drainFrom, List.range']
  | cons h t ih =>
    intro s idx
    show ((idx, s.2) :: drainFrom h t (idx + 1)).map Prod.fst = _
    rw [List.map_cons, ih]
    conv_rhs => rw [List.range'_succ]
    simp

theorem weight_none : weight none = 0 := rfl

theorem weight_some (x : Nat × SubtitleEntry) : weight (some x) = 1 := rfl

theorem mainLoopF_length : ∀ fuel s1 i1 s2 i2 k,
    weight s1 + i1.length + weight s2 + i2.length < fuel →
    (s1 = none → i1 = []) → (s2 = none → i2 = []) →
    (mainLoopF fuel s1 i1 s2 i2 k).length =
      weight s1 + i1.length + weight s2 + i2.length := by
  intro fuel
  induction fuel with
  | zero => intro s1 i1 s2 i2 k h _ _; omega
  | succ fuel ih =>
    intro s1 i1 s2 i2 k h hv1 hv2
    match s1, s2 with
    | none, none =>
      rw [hv1 rfl, hv2 rfl]
      simp [mainLoopF, weight_none]
    | some a, none =>
      rw [hv2 rfl]
      simp only [mainLoopF]
      rw [drainFrom_length]
      simp only [weight_some, weight_none, List.length_nil]
      omega
    | none, some b =>
      rw [hv1 rfl]
      simp only [mainLoopF]
      rw [drainFrom_length]
      simp only [weight_some, weight_none, List.length_nil]
      omega
    | some a, some b =>
      simp only [mainLoopF]
      have hw1 : weight (i1.head?) + i1.tail.length = i1.length := by
        cases i1 <;> simp [weight_some, weight_none] <;> omega
      have hw2 : weight (i2.head?) + i2.tail.length = i2.length := by
        cases i2 <;> simp [weight_some, weight_none] <;> omega
      have hv1' : i1.head? = none → i1.tail = [] := by cases i1 <;> simp
      have hv2' : i2.head? = none → i2.tail = [] := by cases i2 <;> simp
      split
      · split
        · rw [List.length_cons,
            ih i1.head? i1.tail (some b) i2 (k + 1)
              (by simp only [weight_some, weight_none] at h ⊢; omega) hv1' (fun hh => Option.noConfusion hh)]
          simp only [weight_some, weight_none] at h ⊢
          omega
        · rw [List.length_cons,
            ih (some a) i1 i2.head? i2.tail (k + 1)
              (by simp only [weight_some, weight_none] at h ⊢; omega) (fun hh => Option.noConfusion hh) hv2']
          simp only [weight_some, weight_none] at h ⊢
          omega
      · split
        · rw [List.length_cons,
            ih i1.head? i1.tail (some b) i2 (k + 1)
              (by simp only [weight_some, weight_none] at h ⊢; omega) hv1' (fun hh => Option.noConfusion hh)]
          simp only [weight_some, weight_none] at h ⊢
          omega
        · rw [List.length_cons,
            ih (some a) i1 i2.head? i2.tail (k + 1)
              (by simp only [weight_some, weight_none] at h ⊢; omega) (fun hh => Option.noConfusion hh) hv2']
          simp only [weight_some, weight_none] at h ⊢
          omega

theorem mainLoopF_map_fst : ∀ fuel s1 i1 s2 i2 k,
    weight s1 + i1.length + weight s2 + i2.length < fuel →
    (s1 = none → i1 = []) → (s2 = none → i2 = []) →
    (mainLoopF fuel s1 i1 s2 i2 k).map Prod.fst =
      List.range' (k + 1) ((mainLoopF fuel s1 i1 s2 i2 k).length) := by
  intro fuel
  induction fuel with
  | zero => intro s1 i1 s2 i2 k h _ _; omega
  | succ fuel ih =>
    intro s1 i1 s2 i2 k h hv1 hv2
    match s1, s2 with
    | none, none => simp [mainLoopF]
    | some a, none =>
      simp only [mainLoopF]
      rw [drainFrom_map_fst, drainFrom_length]
    | none, some b =>
      simp only [mainLoopF]
      rw [drainFrom_map_fst, drainFrom_length]
    | some a, some b =>
      simp only [mainLoopF]
      have hv1' : i1.head? = none → i1.tail = [] := by cases i1 <;> simp
      have hv2' : i2.head? = none → i2.tail = [] := by cases i2 <;> simp
      have hw1 : weight (i1.head?) + i1.tail.length = i1.length := by
        cases i1 <;> simp [weight_some, weight_none] <;> omega
      have hw2 : weight (i2.head?) + i2.tail.length = i2.length := by
        cases i2 <;> simp [weight_some, weight_none] <;> omega
      split
      · split
        · rw [List.map_cons,
            ih i1.head? i1.tail (some b) i2 (k + 1)
              (by simp only [weight_some, weight_none] at h ⊢; omega) hv1' (fun hh => Option.noConfusion hh)]
          rw [List.length_cons]
          conv_rhs => rw [List.range'_succ]
        · rw [List.map_cons,
            ih (some a) i1 i2.head? i2.tail (k + 1)
              (by simp only [weight_some, weight_none] at h ⊢; omega) (fun hh => Option.noConfusion hh) hv2']
          rw [List.length_cons]
          conv_rhs => rw [List.range'_succ]
      · split
        · rw [List.map_cons,
            ih i1.head? i1.tail (some b) i2 (k + 1)
              (by simp only [weight_some, weight_none] at h ⊢; omega) hv1' (fun hh => Option.noConfusion hh)]
          rw [List.length_cons]
          conv_rhs => rw [List.range'_succ]
        · rw [List.map_cons,
            ih (some a) i1 i2.head? i2.tail (k + 1)
              (by simp only [weight_some, weight_none] at h ⊢; omega) (fun hh => Option.noConfusion hh) hv2']
          rw [List.length_cons]
          conv_rhs => rw [List.range'_succ]

theorem headNoneTail {α : Type} (l : List α) : l.head? = none → l.tail = [] := by
  cases l <;> simp

theorem cursor_measure (l : List SubtitleEntry) :
    weight l.enum.head? + l.enum.tail.length = l.length := by
  have h : l.enum.length = l.length := List.enum_length
  rw [← h]
  generalize l.enum = e
  cases e <;> simp [weight_none, weight_some] <;> omega

theorem containsSub_nil : ∀ l : List Char, containsSub [] l = true := by
  intro l
  cases l <;> simp [containsSub, List.isPrefixOf]

theorem isPrefixOf_append_self : ∀ i post : List Char, i.isPrefixOf (i ++ post) = true := by
  intro i post
  induction i with
  | nil => simp [List.isPrefixOf]
  | cons c cs ih => simp [List.isPrefixOf, ih]

theorem containsSub_around : ∀ (pre i post : List Char),
    containsSub i (pre ++ (i ++ post)) = true := by
  intro pre
  induction pre with
  | nil =>
    intro i post
    cases i with
    | nil => exact containsSub_nil _
    | cons c cs =>
      show containsSub (c :: cs) ((c :: cs) ++ post) = true
      rw [List.cons_append, containsSub, ← List.cons_append, isPrefixOf_append_self]
      rfl
  | cons p ps ih =>
    intro i post
    rw [List.cons_append, containsSub, ih i post]
    simp

theorem splitOnChar_ne_nil {sep : Char} : ∀ cs, splitOnChar sep cs ≠ [] := by
  intro cs
  cases cs with
  | nil => simp [splitOnChar]
  | cons c cs =>
    rw [splitOnChar]
    split
    · simp
    · split <;> simp

theorem splitOnChar_length {sep : Char} : ∀ cs, (splitOnChar sep cs).length = cs.count sep + 1 := by
  intro cs
  induction cs with
  | nil => simp [splitOnChar]
  | cons c cs ih =>
    rw [splitOnChar]
    by_cases hc : c = sep
    · rw [if_pos hc]
      simp [List.count_cons, hc, ih]
    · rw [if_neg hc]
      cases hsp : splitOnChar sep cs with
      | nil => exact absurd hsp (splitOnChar_ne_nil cs)
      | cons p ps =>
        rw [hsp] at ih
        simp only [List.length_cons] at ih ⊢
        simp [List.count_cons, hc]
        omega

/-- Claim C1: the claim says an overlap merge consumes both cursors and
scenario B yields a single merged entry. The code advances only the
cursor with the earlier start, so on scenario B it emits the merged
entry as entry 1 and then re-emits the second source entry as entry 2;
this theorem evaluates the sequencing core at that failing input. -/
theorem c1_overlap_advances_one_cursor :
    runMain [⟨0, 2000, "A".data⟩] [⟨1000, 3000, "B".data⟩] =
      [(1, ⟨0, 3000, "A\nB".data⟩), (2, ⟨1000, 3000, "B".data⟩)] := by
  decide

/-- Claim C2: the claim says each overlap merge lowers the emitted count
by one. In the code every emission, the merge branch included, consumes
exactly one source entry, so the emitted count always equals the sum of
the two trimmed input lengths, overlaps or not. -/
theorem c2_emitted_count : ∀ l1 l2 : List SubtitleEntry,
    (runMain l1 l2).length = l1.length + l2.length := by
  intro l1 l2
  have m1 := cursor_measure l1
  have m2 := cursor_measure l2
  unfold runMain
  rw [mainLoopF_length _ _ _ _ _ _ (by omega) (headNoneTail _) (headNoneTail _)]
  omega

/-- Claim C3: for every pair of input sequences the printed indices are
exactly 1..N in emission order, with N the number of emitted entries. -/
theorem c3_sequential_indices : ∀ l1 l2 : List SubtitleEntry,
    (runMain l1 l2).map Prod.fst = List.range' 1 ((runMain l1 l2).length) := by
  intro l1 l2
  have m1 := cursor_measure l1
  have m2 := cursor_measure l2
  unfold runMain
  exact mainLoopF_map_fst _ _ _ _ _ 0 (by omega) (headNoneTail _) (headNoneTail _)

/-- Claim C4: for entries whose end is at least their start, the
four-case has_overlap equals the single closed-interval intersection
predicate, touching boundaries included. -/
theorem c4_overlap_iff_intersection : ∀ e1 e2 : SubtitleEntry,
    e1.start ≤ e1.«end» → e2.start ≤ e2.«end» →
    (has_overlap e1 e2 = true ↔ (e1.start ≤ e2.«end» ∧ e2.start ≤ e1.«end»)) := by
  intro e1 e2 h1 h2
  unfold has_overlap
  split_ifs <;> simp <;> omega

/-- Witness for claim C4 at concrete overlapping and non-overlapping
entries, discharging both ordering hypotheses. -/
theorem c4_overlap_iff_intersection_witness :
    has_overlap ⟨0, 2000, "A".data⟩ ⟨1000, 3000, "B".data⟩ = true ∧
    has_overlap ⟨0, 1000, "A".data⟩ ⟨2000, 3000, "B".data⟩ = false := by
  constructor
  · exact (c4_overlap_iff_intersection ⟨0, 2000, "A".data⟩ ⟨1000, 3000, "B".data⟩
      (by decide) (by decide)).mpr (by decide)
  · have h := (c4_overlap_iff_intersection ⟨0, 1000, "A".data⟩ ⟨2000, 3000, "B".data⟩
      (by decide) (by decide))
    by_contra hc
    simp only [Bool.not_eq_false] at hc
    exact absurd (h.mp hc) (by decide)

/-- Claim C5: merge_entries returns the hull interval, with the text of
the entry whose start equals the combined start first and the other text
after a line break; on equal starts the first argument wins. -/
theorem c5_merge_shape : ∀ e1 e2 : SubtitleEntry,
    (merge_entries e1 e2).start = min e1.start e2.start ∧
    (merge_entries e1 e2).«end» = max e1.«end» e2.«end» ∧
    (merge_entries e1 e2).text =
      (if e1.start ≤ e2.start then e1.text ++ '\n' :: e2.text
       else e2.text ++ '\n' :: e1.text) := by
  intro e1 e2
  refine ⟨rfl, rfl, ?_⟩
  show (if min e1.start e2.start = e1.start then e1.text ++ '\n' :: e2.text
    else e2.text ++ '\n' :: e1.text) = _
  simp only [Nat.min_def]
  split_ifs <;> first | rfl | (exfalso; omega)

/-- Claim C6: parsing after formatting is the identity on every
millisecond count, and formatting after parsing is the identity on every
well-formed HH:MM:SS,mmm string, whose two-digit hour field keeps the
hour value below 100. -/
theorem c6_timecode_roundtrip :
    (∀ m : Nat, srt_timecode_to_msecs (msecs_to_srt_timecode m) = some m) ∧
    (∀ s : List Char, wellFormedTC s = true →
      (srt_timecode_to_msecs s).map msecs_to_srt_timecode = some s) :=
  ⟨roundtrip_format_parse, roundtrip_parse_format⟩

/-- Witness for claim C6 at a concrete well-formed timecode and a
concrete millisecond count. -/
theorem c6_timecode_roundtrip_witness :
    wellFormedTC "01:02:03,004".data = true ∧
    (srt_timecode_to_msecs "01:02:03,004".data).map msecs_to_srt_timecode =
      some "01:02:03,004".data ∧
    srt_timecode_to_msecs (msecs_to_srt_timecode 3723004) = some 3723004 :=
  ⟨by decide, c6_timecode_roundtrip.2 "01:02:03,004".data (by decide),
    c6_timecode_roundtrip.1 3723004⟩

/-- Claim C9: has_overlap is symmetric for all entries, with no
precondition relating end and start. -/
theorem c9_overlap_symmetric : ∀ e1 e2 : SubtitleEntry,
    has_overlap e1 e2 = has_overlap e2 e1 := by
  intro e1 e2
  unfold has_overlap
  split_ifs <;> first | rfl | (exfalso; omega)

/-- Counterexample to claim C7 as stated: the block of five fields with
no colon has a third whitespace-separated token that is not the arrow,
yet the raised error is the substring-not-found one from token.index,
whose message does not include the declared index 1. -/
theorem c7_counterexample :
    do_entry "1 2 X 4 5".data = Except.error ParseErr.substringNotFound ∧
    containsSub "1".data (errMsg ParseErr.substringNotFound) = false := by
  decide

/-- Claim C7 as amended: for blocks that contain a colon and split into
five whitespace-delimited fields, a third field other than the arrow
raises the arrow error, whose message includes the declared index (the
first field); and no block whose third field is the arrow ever raises
the arrow error. -/
theorem c7_arrow_error :
    (∀ (block i st ar en tx : List Char), ':' ∈ block →
      splitWs 4 block = [i, st, ar, en, tx] → ar ≠ "-->".data →
      do_entry block = Except.error (ParseErr.arrowExpected i) ∧
        containsSub i (errMsg (ParseErr.arrowExpected i)) = true) ∧
    (∀ (block i st ar en tx j : List Char),
      splitWs 4 block = [i, st, ar, en, tx] → ar = "-->".data →
      do_entry block ≠ Except.error (ParseErr.arrowExpected j)) := by
  constructor
  · intro block i st ar en tx hc hsplit har
    constructor
    · unfold do_entry
      rw [if_pos hc, hsplit]
      simp only [har, if_false]
    · show containsSub i ("at index ".data ++ i ++ ": expected -->".data) = true
      rw [List.append_assoc]
      exact containsSub_around _ i _
  · intro block i st ar en tx j hsplit har
    by_cases hc : ':' ∈ block
    · unfold do_entry
      rw [if_pos hc, hsplit]
      simp only [har, if_true]
      cases srt_timecode_to_msecs st <;> cases srt_timecode_to_msecs en <;> simp
    · unfold do_entry
      rw [if_neg hc]
      simp

/-- Witness for the amended claim C7 at one malformed-arrow block and
one well-formed block, discharging every hypothesis concretely. -/
theorem c7_arrow_error_witness :
    do_entry "1 00:00:00,000 X 00:00:01,000 T".data =
      Except.error (ParseErr.arrowExpected "1".data) ∧
    containsSub "1".data (errMsg (ParseErr.arrowExpected "1".data)) = true ∧
    do_entry "1 00:00:00,000 --> 00:00:01,000 T".data ≠
      Except.error (ParseErr.arrowExpected "1".data) := by
  have h1 := c7_arrow_error.1 "1 00:00:00,000 X 00:00:01,000 T".data
    "1".data "00:00:00,000".data "X".data "00:00:01,000".data "T".data
    (by decide) (by decide) (by decide)
  have h2 := c7_arrow_error.2 "1 00:00:00,000 --> 00:00:01,000 T".data
    "1".data "00:00:00,000".data "-->".data "00:00:01,000".data "T".data "1".data
    (by decide) (by decide)
  exact ⟨h1.1, h1.2, h2⟩

/-- Claim C8: print_entry warns exactly when the text holds more than
one line break, equivalently when the body spans three or more lines,
and in either case still returns the rendered block of index line,
timecode range line and text body. -/
theorem c8_excessive_lines_warning : ∀ (e : SubtitleEntry) (i : Nat),
    ((print_entry e i).1 = true ↔ 1 < e.text.count '\n') ∧
    (1 < e.text.count '\n' ↔ 3 ≤ (splitOnChar '\n' e.text).length) ∧
    (print_entry e i).2 = natDigits i ++ '\n' ::
      (msecs_to_srt_timecode e.start ++ " --> ".data ++
        msecs_to_srt_timecode e.«end» ++ '\n' :: e.text) := by
  intro e i
  refine ⟨?_, ?_, rfl⟩
  · simp [print_entry]
  · rw [splitOnChar_length]
    omega

/-- Claim C10: when skip_last exceeds the number of parsed blocks the
islice stop bound is negative, so read_subs raises rather than returning
an empty or shortened sequence. -/
theorem c10_skip_last_overflow : ∀ (inp : Input) (subs : List SubtitleEntry),
    ((splitOnNlNl inp.content).filter (fun t => !t.isEmpty)).mapM do_entry =
      Except.ok subs →
    subs.length < inp.skip_last →
    read_subs inp = Except.error ParseErr.sliceNegativeStop := by
  intro inp subs hparse hskip
  unfold read_subs
  rw [hparse]
  show (if subs.length < inp.skip_last then _ else _ : Except ParseErr _) = _
  rw [if_pos hskip]

/-- Witness for claim C10: a one-block file trimmed with skip_last two
makes read_subs raise. -/
theorem c10_skip_last_overflow_witness :
    read_subs ⟨"1\n00:00:00,000 --> 00:00:01,000\nA".data, 0, 2⟩ =
      Except.error ParseErr.sliceNegativeStop :=
  c10_skip_last_overflow ⟨"1\n00:00:00,000 --> 00:00:01,000\nA".data, 0, 2⟩
    [⟨0, 1000, "A".data⟩] (by decide) (by decide)
